import Mathlib

/-!
Verification of the crypty virus detector (find_sig.cpp).

Files are modelled as lists of bytes (`List Nat`); a source that cannot be
opened is `none : Option (List Nat)`.  The buffered sliding-window matcher
`containsSignatureBuffered`, the ELF classifier `isELFFile`, the per-file
scan unit, the main routine's control flow, and the thread pool's
queue-draining discipline are each embedded below, translated statement by
statement from the C++ source.
-/

namespace CryptyDetector

/-! ## Matcher: containsSignatureBuffered (find_sig.cpp lines 137-172) -/

/-- `constexpr size_t MIN_BUFFER_SIZE = 4096;` -/
def MIN_BUFFER_SIZE : Nat := 4096

/-- `constexpr size_t EXTRA_BUFFER = 1024;` -/
def EXTRA_BUFFER : Nat := 1024

/-- `size_t buffer_size = std::max(MIN_BUFFER_SIZE, signature.size() + EXTRA_BUFFER);` -/
def bufferSize (sig : List Nat) : Nat :=
  max MIN_BUFFER_SIZE (sig.length + EXTRA_BUFFER)

/-- `const size_t OVERLAP = signature.size() - 1;` -/
def OVERLAP (sig : List Nat) : Nat := sig.length - 1

/-- `std::vector<uint8_t> buffer(buffer_size + OVERLAP);` — the size of the
single working buffer allocated by one matcher invocation. -/
def allocationSize (sig : List Nat) : Nat := bufferSize sig + OVERLAP sig

/-- The carry-over step at the top of the read loop:

    if (bytesRead >= OVERLAP) {
        std::copy(buffer.end() - OVERLAP, buffer.end(), buffer.begin());
    } else if (bytesRead > 0) {
        std::copy(buffer.begin() + bytesRead - OVERLAP, ...);   // out of bounds
    }

The second branch forms the iterator `buffer.begin() + bytesRead - OVERLAP`
with `bytesRead - OVERLAP` negative, which is undefined behaviour; the model
returns `none` for it. -/
def carryStep (sig : List Nat) (buffer : List Nat) (bytesRead : Nat) :
    Option (List Nat) :=
  if OVERLAP sig ≤ bytesRead then
    some (buffer.drop (buffer.length - OVERLAP sig) ++ buffer.drop (OVERLAP sig))
  else if 0 < bytesRead then
    none
  else
    some buffer

/-- The buffer contents after
`file.read(buffer.data() + OVERLAP, buffer_size)` reads `chunk` into the
positions `[OVERLAP, OVERLAP + chunk.length)`; bytes past the newly read
region keep their previous (stale) values. -/
def nextBuffer (sig : List Nat) (buffer1 chunk : List Nat) : List Nat :=
  buffer1.take (OVERLAP sig) ++ chunk ++ buffer1.drop (OVERLAP sig + chunk.length)

/-- The region scanned by
`std::search(buffer.begin(), buffer.begin() + totalBytes, ...)` with
`totalBytes = bytesRead + OVERLAP`. -/
def searchWindow (sig : List Nat) (buffer1 chunk : List Nat) : List Nat :=
  (nextBuffer sig buffer1 chunk).take (chunk.length + OVERLAP sig)

/-- Executable occurrence test, the behaviour of `std::search`:
true iff `sig` occurs contiguously inside `window`. -/
def searchFound (sig : List Nat) : List Nat → Bool
  | [] => sig.isPrefixOf []
  | a :: tl => sig.isPrefixOf (a :: tl) || searchFound sig tl

/-- The read loop of `containsSignatureBuffered`.  One call is one loop
iteration; `fuel` only bounds the number of iterations (the loop itself
terminates because each continued iteration consumed a full
`buffer_size ≥ 4096` bytes of the file).  `rest` is the not-yet-read part
of the file.  `none` means the undefined-behaviour carry-over branch was
reached (or fuel ran out, which `scanAux_isSome` below rules out). -/
def scanAux (sig : List Nat) : Nat → List Nat → Nat → List Nat → Option Bool
  | 0, _, _, _ => none
  | fuel + 1, buffer, bytesRead, rest =>
    match carryStep sig buffer bytesRead with
    | none => none
    | some buffer1 =>
      if searchFound sig (searchWindow sig buffer1 (rest.take (bufferSize sig))) then
        some true
      else if (rest.take (bufferSize sig)).length < bufferSize sig then
        some false
      else
        scanAux sig fuel (nextBuffer sig buffer1 (rest.take (bufferSize sig)))
          (rest.take (bufferSize sig)).length (rest.drop (bufferSize sig))

/-- `bool containsSignatureBuffered(path, signature)` applied to the byte
content of an openable file.  `if (signature.empty()) return false;` guards
the loop; the working buffer starts zero-initialized
(`std::vector<uint8_t> buffer(buffer_size + OVERLAP)`), and `bytesRead`
starts at `0`. -/
def containsSignatureBuffered (content : List Nat) (sig : List Nat) : Option Bool :=
  if sig.isEmpty then some false
  else scanAux sig (content.length + 1) (List.replicate (allocationSize sig) 0) 0 content

/-- `containsSignatureBuffered` on a general source:
`std::ifstream file(path, std::ios::binary); if (!file) return false;` —
an unopenable file yields `false` with no error signalled. -/
def containsSignatureFile (file : Option (List Nat)) (sig : List Nat) : Option Bool :=
  if sig.isEmpty then some false
  else
    match file with
    | none => some false
    | some content => containsSignatureBuffered content sig

/-! ## Classifier: isELFFile (find_sig.cpp lines 113-123) -/

/-- The fixed sequence `0x7F 'E' 'L' 'F'`. -/
def ELF_MAGIC : List Nat := [0x7F, 0x45, 0x4C, 0x46]

/-- `bool isELFFile(const fs::path& path)`: `if (!file) return false;` on an
unopenable file; then read 4 bytes, `if (file.gcount() < 4) return false;`,
and compare them with the magic. -/
def isELFFile (file : Option (List Nat)) : Bool :=
  match file with
  | none => false
  | some bytes =>
    if bytes.length < 4 then false
    else bytes.take 4 == ELF_MAGIC

/-! ## Scan unit and main control flow (find_sig.cpp lines 180-236) -/

/-- A record written to standard output/error by one scan unit
(the synchronized result sink). -/
inductive ScanRecord where
  | infected (path : Nat)
  | errorRecord (path : Nat)
deriving DecidableEq, Repr

/-- The body of the task submitted per file in `main`:

    try {
        if (!isELFFile(path)) return;
        if (containsSignatureBuffered(path, signature)) { ... infected ... }
    } catch (const std::exception& e) { ... error record ... }

`ifstream` failures are reported through the stream state, not exceptions,
so an unopenable or unreadable file never reaches the catch handler: both
helpers just return `false` for it. -/
def scanUnit (path : Nat) (file : Option (List Nat)) (sig : List Nat) :
    List ScanRecord :=
  if isELFFile file = false then []
  else if containsSignatureFile file sig = some true then [ScanRecord.infected path]
  else []

/-- Observable control-flow events of `main` after the signature is loaded. -/
inductive MainEvent where
  | submitScan (path : Nat)
  | reportTerminal
  | waitStdin
  | poolShutdown
deriving DecidableEq, Repr

/-- The tail of `main` in source order: the submission loop over discovered
files, then `std::cout << "\nScan completed.\n";`, then `std::cin.get();`,
then `return 0;` — and only at scope exit the `ThreadPool` destructor,
which joins the worker threads. -/
def mainBody (files : List Nat) : List MainEvent :=
  files.map MainEvent.submitScan ++
    [MainEvent.reportTerminal, MainEvent.waitStdin, MainEvent.poolShutdown]

/-- `main` as exit code plus event trace: `load_signature` throws on an
unreadable source and `main` throws on an empty signature; both are caught
before any scanning and yield `return 1` with no scan events. -/
def runMain (sigSource : Option (List Nat)) (files : List Nat) :
    Nat × List MainEvent :=
  match sigSource with
  | none => (1, [])
  | some sig => if sig.isEmpty then (1, []) else (0, mainBody files)

/-! ## Thread pool (find_sig.cpp lines 50-109)

The pool is modelled as a small-step transition system over interleavings
of the worker loops and the destructor.  A task is a unit of work together
with its runtime behaviour (whether executing it throws). -/

/-- Whether running a unit of work completes normally or throws. -/
inductive TaskKind where
  | ok
  | raises
deriving DecidableEq, Repr

/-- A submitted unit of work, identified by a number. -/
structure Task where
  tid : Nat
  kind : TaskKind
deriving DecidableEq, Repr

/-- `try { task(); } catch (...) { /* Optional: handle ... */ }` — the
worker-loop boundary produces no sink record whatever the task does. -/
def boundaryRecords (t : Task) : List Nat :=
  match t.kind with
  | TaskKind.ok => []
  | TaskKind.raises => []

/-- Pool state: the FIFO `tasks` queue; per-worker claimed task (`none`
while between tasks); per-worker liveness (`false` once the worker
returned); the multiset of executed tasks; sink records emitted by the
worker-loop boundary; and the `stop` flag set by the destructor. -/
structure PoolState where
  queue : List Task
  running : List (Option Task)
  alive : List Bool
  done : List Task
  sink : List Nat
  stopFlag : Bool
deriving DecidableEq, Repr

/-- One atomic step of the pool. `claimTask` is the locked
`tasks.front(); tasks.pop()`; `finishTask` is `task()` returning (or
throwing into the swallowing catch); `setStop` is `stop = true` in the
destructor; `workerExit` is `if (stop && tasks.empty()) return;`. -/
inductive PoolStep : PoolState → PoolState → Prop where
  | claimTask (s : PoolState) (i : Nat) (t : Task) (q : List Task)
      (hq : s.queue = t :: q)
      (ha : s.alive[i]? = some true)
      (hr : s.running[i]? = some none) :
      PoolStep s { s with queue := q, running := s.running.set i (some t) }
  | finishTask (s : PoolState) (i : Nat) (t : Task)
      (ha : s.alive[i]? = some true)
      (hr : s.running[i]? = some (some t)) :
      PoolStep s { s with running := s.running.set i none,
                          done := t :: s.done,
                          sink := boundaryRecords t ++ s.sink }
  | setStop (s : PoolState) :
      PoolStep s { s with stopFlag := true }
  | workerExit (s : PoolState) (i : Nat)
      (ha : s.alive[i]? = some true)
      (hr : s.running[i]? = some none)
      (hs : s.stopFlag = true)
      (hq : s.queue = []) :
      PoolStep s { s with alive := s.alive.set i false }

/-- Pool state right after `ThreadPool pool(n)` and the submission loop:
all `ts` units queued, `n` idle live workers, nothing executed. -/
def initState (n : Nat) (ts : List Task) : PoolState :=
  { queue := ts
    running := List.replicate n none
    alive := List.replicate n true
    done := []
    sink := []
    stopFlag := false }

/-- Reachability under interleaved pool steps. -/
def poolReach (s s' : PoolState) : Prop :=
  Relation.ReflTransGen PoolStep s s'

/-- The destructor's `join` loop has returned: every worker exited. -/
def terminalState (s : PoolState) : Prop :=
  ∀ b ∈ s.alive, b = false

instance terminalStateDecidable (s : PoolState) : Decidable (terminalState s) :=
  inferInstanceAs (Decidable (∀ b ∈ s.alive, b = false))

/-- Invariant carried through every interleaving: the queue, the claimed
tasks and the executed tasks always form a permutation of the submitted
tasks; the boundary sink stays empty; `running` and `alive` stay aligned;
dead workers hold no task; and while the queue is non-empty some worker is
still alive. -/
def PoolInv (ts : List Task) (s : PoolState) : Prop :=
  (s.queue ++ s.running.filterMap id ++ s.done).Perm ts ∧
    s.sink = [] ∧
    s.running.length = s.alive.length ∧
    (∀ i : Nat, s.alive[i]? = some false → s.running[i]? = some none) ∧
    ((∃ i : Nat, s.alive[i]? = some true) ∨ s.queue = [])

/-! ## Instrumented mirror of the read loop for the memory bound (C9) -/

/-- Mirror of `scanAux` that records, for every loop iteration, the pair
(working-buffer length at the `file.read` call, number of bytes requested
by that read). -/
def scanAuxTrace (sig : List Nat) : Nat → List Nat → Nat → List Nat → List (Nat × Nat)
  | 0, _, _, _ => []
  | fuel + 1, buffer, bytesRead, rest =>
    match carryStep sig buffer bytesRead with
    | none => []
    | some buffer1 =>
      (buffer1.length, bufferSize sig) ::
        (if searchFound sig (searchWindow sig buffer1 (rest.take (bufferSize sig))) then
          []
        else if (rest.take (bufferSize sig)).length < bufferSize sig then
          []
        else
          scanAuxTrace sig fuel (nextBuffer sig buffer1 (rest.take (bufferSize sig)))
            (rest.take (bufferSize sig)).length (rest.drop (bufferSize sig)))

/-- Buffer-length/read-request trace of one `containsSignatureBuffered` call. -/
def scanTrace (content sig : List Nat) : List (Nat × Nat) :=
  if sig.isEmpty then []
  else scanAuxTrace sig (content.length + 1) (List.replicate (allocationSize sig) 0) 0 content

/-! ## Concrete pool runs used by the C5/C6 checks -/

/-- A normally completing unit for the concrete C5 pool run. -/
def c5Task : Task := { tid := 0, kind := TaskKind.ok }

/-- States of the concrete one-worker, one-unit run for C5. -/
def c5Mid1 : PoolState :=
  { queue := [], running := [some c5Task], alive := [true], done := [],
    sink := [], stopFlag := false }

def c5Mid2 : PoolState :=
  { queue := [], running := [none], alive := [true], done := [c5Task],
    sink := [], stopFlag := false }

def c5Mid3 : PoolState :=
  { queue := [], running := [none], alive := [true], done := [c5Task],
    sink := [], stopFlag := true }

def c5Final : PoolState :=
  { queue := [], running := [none], alive := [false], done := [c5Task],
    sink := [], stopFlag := true }

/-- A throwing unit for the concrete C6 pool run. -/
def c6Task : Task := { tid := 5, kind := TaskKind.raises }

/-- States of the concrete one-worker run whose single unit throws. -/
def c6Mid1 : PoolState :=
  { queue := [], running := [some c6Task], alive := [true], done := [],
    sink := [], stopFlag := false }

def c6Mid2 : PoolState :=
  { queue := [], running := [none], alive := [true], done := [c6Task],
    sink := [], stopFlag := false }

def c6Mid3 : PoolState :=
  { queue := [], running := [none], alive := [true], done := [c6Task],
    sink := [], stopFlag := true }

def c6Final : PoolState :=
  { queue := [], running := [none], alive := [false], done := [c6Task],
    sink := [], stopFlag := true }


/-! ## Basic facts about the matcher's constants -/

theorem bufferSize_pos (sig : List Nat) : 0 < bufferSize sig :=
  lt_of_lt_of_le (by norm_num [MIN_BUFFER_SIZE]) (le_max_left _ _)

theorem overlap_lt_bufferSize (sig : List Nat) : OVERLAP sig < bufferSize sig := by
  have h : sig.length + EXTRA_BUFFER ≤ bufferSize sig := le_max_right _ _
  have : OVERLAP sig < sig.length + EXTRA_BUFFER := by
    simp only [OVERLAP, EXTRA_BUFFER]; omega
  omega

theorem overlap_add_one (sig : List Nat) (h : sig ≠ []) :
    OVERLAP sig + 1 = sig.length := by
  have : 0 < sig.length := List.length_pos.mpr h
  simp only [OVERLAP]; omega

/-! ## searchFound agrees with contiguous occurrence -/

theorem isPrefixOf_eq_true_iff :
    ∀ (l₁ l₂ : List Nat), l₁.isPrefixOf l₂ = true ↔ ∃ t, l₁ ++ t = l₂
  | [], l₂ => by simp
  | a :: as, [] => by simp
  | a :: as, b :: bs => by
    rw [List.isPrefixOf_cons₂, Bool.and_eq_true, beq_iff_eq,
      isPrefixOf_eq_true_iff as bs]
    constructor
    · rintro ⟨rfl, t, rfl⟩; exact ⟨t, rfl⟩
    · rintro ⟨t, ht⟩
      rw [List.cons_append] at ht
      injection ht with hb hrest
      exact ⟨hb, t, hrest⟩

theorem searchFound_iff (sig : List Nat) :
    ∀ (w : List Nat), searchFound sig w = true ↔ ∃ s t, s ++ sig ++ t = w
  | [] => by
    simp only [searchFound, isPrefixOf_eq_true_iff]
    constructor
    · rintro ⟨t, ht⟩; exact ⟨[], t, by simpa using ht⟩
    · rintro ⟨s, t, hst⟩
      rcases List.append_eq_nil.mp hst with ⟨hs, hrest⟩
      rcases List.append_eq_nil.mp hs with ⟨hsn, hsig⟩
      exact ⟨[], by simp [hsig]⟩
  | a :: tl => by
    simp only [searchFound, Bool.or_eq_true, isPrefixOf_eq_true_iff,
      searchFound_iff sig tl]
    constructor
    · rintro (⟨t, ht⟩ | ⟨s, t, hst⟩)
      · exact ⟨[], t, by simpa using ht⟩
      · exact ⟨a :: s, t, by simp [hst]⟩
    · rintro ⟨s, t, hst⟩
      cases s with
      | nil => exact Or.inl ⟨t, by simpa using hst⟩
      | cons b s' =>
        rw [List.cons_append, List.cons_append] at hst
        injection hst with _ hrest
        exact Or.inr ⟨s', t, hrest⟩

/-! ## Shape of one loop iteration -/

theorem carryStep_zero (sig buffer : List Nat) :
    carryStep sig buffer 0 = some buffer := by
  unfold carryStep
  by_cases h : OVERLAP sig ≤ 0
  · rw [if_pos h]
    have h0 : OVERLAP sig = 0 := Nat.le_zero.mp h
    simp [h0, List.drop_length]
  · rw [if_neg h, if_neg (by omega)]

theorem carryStep_full (sig buffer : List Nat) :
    carryStep sig buffer (bufferSize sig) =
      some (buffer.drop (buffer.length - OVERLAP sig) ++ buffer.drop (OVERLAP sig)) := by
  unfold carryStep
  rw [if_pos (le_of_lt (overlap_lt_bufferSize sig))]

theorem searchWindow_eq (sig buffer1 chunk : List Nat)
    (h : OVERLAP sig ≤ buffer1.length) :
    searchWindow sig buffer1 chunk = buffer1.take (OVERLAP sig) ++ chunk := by
  unfold searchWindow nextBuffer
  exact List.take_left' (by simp [List.length_take, Nat.min_eq_left h, Nat.add_comm])

theorem take_drop_append_drop (l : List Nat) (m n : Nat) (h : m ≤ n) :
    (l.take n).drop m ++ l.drop n = l.drop m := by
  conv_rhs => rw [← List.take_append_drop n l]
  rw [List.drop_append_eq_append_drop]
  by_cases hm : m ≤ (l.take n).length
  · rw [Nat.sub_eq_zero_of_le hm, List.drop_zero]
  · have h1 : (l.take n).length = min n l.length := List.length_take n l
    have h2 : l.length < m := by
      rcases Nat.le_total n l.length with hnl | hnl
      · omega
      · rw [Nat.min_eq_right hnl] at h1; omega
    have h3 : l.drop n = [] := List.drop_eq_nil_of_le (by omega)
    rw [h3]
    simp

theorem infix_take_of_le {s sig t L : List Nat} (h : s ++ sig ++ t = L)
    (hN : s.length + sig.length ≤ N) :
    ∃ s' t', s' ++ sig ++ t' = L.take N := by
  refine ⟨s, t.take (N - s.length - sig.length), ?_⟩
  rw [← h, List.take_append_eq_append_take, List.take_append_eq_append_take,
    List.take_of_length_le (show s.length ≤ N by omega),
    List.take_of_length_le (show sig.length ≤ N - s.length by omega),
    List.length_append]
  congr 2
  omega

theorem infix_drop_of_le {s sig t L : List Nat} (h : s ++ sig ++ t = L)
    (hN : N ≤ s.length) :
    ∃ s' t', s' ++ sig ++ t' = L.drop N := by
  refine ⟨s.drop N, t, ?_⟩
  rw [← h, List.drop_append_eq_append_drop, List.drop_append_eq_append_drop,
    Nat.sub_eq_zero_of_le hN, List.drop_zero,
    Nat.sub_eq_zero_of_le (show N ≤ (s ++ sig).length by simp; omega),
    List.drop_zero]

/-! ## Completeness of the sliding-window loop -/

/-- Loop invariant for detection: if the signature occurs in the carried
bytes followed by the unread remainder of the file, the loop reports it.
`buffer1` is the buffer state after the carry-over copy at the top of the
iteration; its first `OVERLAP` bytes are exactly the carried bytes. -/
theorem scanAux_complete (sig : List Nat) (hne : sig ≠ []) :
    ∀ (fuel : Nat) (rest buffer : List Nat) (bytesRead : Nat) (buffer1 : List Nat),
      carryStep sig buffer bytesRead = some buffer1 →
      buffer1.length = bufferSize sig + OVERLAP sig →
      (∃ s t, s ++ sig ++ t = buffer1.take (OVERLAP sig) ++ rest) →
      rest.length < fuel * bufferSize sig →
      scanAux sig fuel buffer bytesRead rest = some true := by
  intro fuel
  induction fuel with
  | zero => intro rest buffer bytesRead buffer1 _ _ _ hflen; simp at hflen
  | succ fuel ih =>
    intro rest buffer bytesRead buffer1 hcarry hblen hocc hflen
    have hOVb : OVERLAP sig ≤ buffer1.length := by rw [hblen]; omega
    set chunk := rest.take (bufferSize sig) with hchunk
    set carry := buffer1.take (OVERLAP sig) with hcarrydef
    have hcl : carry.length = OVERLAP sig := by
      rw [hcarrydef, List.length_take]; omega
    have hgotle : chunk.length ≤ bufferSize sig := by
      rw [hchunk, List.length_take]; omega
    have hgotmin : chunk.length = min (bufferSize sig) rest.length := by
      rw [hchunk, List.length_take]
    simp only [scanAux, hcarry]
    rw [searchWindow_eq sig buffer1 _ hOVb, ← hchunk, ← hcarrydef]
    by_cases hfound : searchFound sig (carry ++ chunk) = true
    · rw [if_pos hfound]
    · rw [if_neg hfound]
      have hnowin : ¬ ∃ s t, s ++ sig ++ t = carry ++ chunk := by
        rw [← searchFound_iff]; exact hfound
      by_cases hlt : chunk.length < bufferSize sig
      · exfalso
        have hrl : rest.length < bufferSize sig := by
          rcases Nat.le_total (bufferSize sig) rest.length with hle | hle
          · rw [Nat.min_eq_left hle] at hgotmin; omega
          · omega
        have hcr : chunk = rest := by
          rw [hchunk]; exact List.take_of_length_le (by omega)
        rw [hcr] at hnowin
        exact hnowin hocc
      · rw [if_neg hlt]
        have hgot : chunk.length = bufferSize sig := by omega
        have hCrest : bufferSize sig ≤ rest.length := by
          rcases Nat.le_total (bufferSize sig) rest.length with hle | hle
          · exact hle
          · rw [Nat.min_eq_right hle] at hgotmin; omega
        obtain ⟨s, t, hst⟩ := hocc
        have hsig1 : OVERLAP sig + 1 = sig.length := overlap_add_one sig hne
        -- The fresh-read bytes land after the carried bytes; the previous
        -- buffer tail beyond them is fully overwritten on a full read.
        have hB2 : nextBuffer sig buffer1 chunk = carry ++ chunk := by
          unfold nextBuffer
          rw [← hcarrydef, List.drop_eq_nil_of_le (by rw [hblen]; omega),
            List.append_nil]
        have hlen2 : (carry ++ chunk).length = bufferSize sig + OVERLAP sig := by
          rw [List.length_append, hcl, hgot]; omega
        have hdropC : (carry ++ chunk).drop (bufferSize sig) =
            chunk.drop (bufferSize sig - OVERLAP sig) := by
          rw [List.drop_append_eq_append_drop,
            List.drop_eq_nil_of_le (by rw [hcl]; exact le_of_lt (overlap_lt_bufferSize sig)),
            hcl, List.nil_append]
        by_cases hend : s.length + sig.length ≤ OVERLAP sig + bufferSize sig
        · exfalso
          obtain ⟨s', t', hst'⟩ := infix_take_of_le hst hend
          apply hnowin
          refine ⟨s', t', ?_⟩
          rw [hst', List.take_append_eq_append_take,
            List.take_of_length_le (by rw [hcl]; omega), hcl,
            show OVERLAP sig + bufferSize sig - OVERLAP sig = bufferSize sig by omega,
            hchunk]
        · have hsC : bufferSize sig ≤ s.length := by omega
          obtain ⟨s', t', hst'⟩ := infix_drop_of_le hst hsC
          have hdropeq : (carry ++ rest).drop (bufferSize sig) =
              rest.drop (bufferSize sig - OVERLAP sig) := by
            rw [List.drop_append_eq_append_drop,
              List.drop_eq_nil_of_le (by rw [hcl]; exact le_of_lt (overlap_lt_bufferSize sig)),
              hcl, List.nil_append]
          rw [hdropeq] at hst'
          rw [hB2, hgot]
          apply ih (rest.drop (bufferSize sig)) (carry ++ chunk) (bufferSize sig)
            ((carry ++ chunk).drop ((carry ++ chunk).length - OVERLAP sig) ++
              (carry ++ chunk).drop (OVERLAP sig))
            (carryStep_full sig (carry ++ chunk))
          · rw [List.length_append, List.length_drop, List.length_drop, hlen2]
            omega
          · -- carried bytes of the next iteration followed by the unread rest
            have htake : ((carry ++ chunk).drop ((carry ++ chunk).length - OVERLAP sig) ++
                (carry ++ chunk).drop (OVERLAP sig)).take (OVERLAP sig) =
                chunk.drop (bufferSize sig - OVERLAP sig) := by
              rw [hlen2, Nat.add_sub_cancel, hdropC]
              exact List.take_left' (by
                have hov := overlap_lt_bufferSize sig
                rw [List.length_drop, hgot]
                omega)
            rw [htake, take_drop_append_drop rest (bufferSize sig - OVERLAP sig)
              (bufferSize sig) (by omega)]
            exact ⟨s', t', hst'⟩
          · rw [List.length_drop]
            rw [Nat.succ_mul] at hflen
            omega

/-- The top-level detection theorem behind claim C1: the initial window
starts with the zero-initialized overlap bytes followed by the first chunk
of the file. -/
theorem contains_complete (sig content : List Nat) (hne : sig ≠ [])
    (hocc : ∃ s t, s ++ sig ++ t = content) :
    containsSignatureBuffered content sig = some true := by
  unfold containsSignatureBuffered
  rw [if_neg (by simpa using hne)]
  obtain ⟨s, t, hst⟩ := hocc
  have htake : (List.replicate (allocationSize sig) (0 : Nat)).take (OVERLAP sig) =
      List.replicate (OVERLAP sig) 0 := by
    rw [List.take_replicate]
    congr 1
    simp [allocationSize]
  apply scanAux_complete sig hne (content.length + 1) content _ 0
    (List.replicate (allocationSize sig) 0) (carryStep_zero sig _)
  · simp [allocationSize]
  · rw [htake]
    exact ⟨List.replicate (OVERLAP sig) 0 ++ s, t, by
      rw [List.append_assoc, List.append_assoc, ← List.append_assoc s, hst]⟩
  · have h1 : content.length * 1 ≤ content.length * bufferSize sig :=
      Nat.mul_le_mul_left _ (bufferSize_pos sig)
    have h2 : 0 < bufferSize sig := bufferSize_pos sig
    rw [Nat.succ_mul]
    omega

/-! ## The scan loop never reaches the out-of-bounds carry-over branch -/

theorem carryStep_none_iff (sig buffer : List Nat) (bytesRead : Nat) :
    carryStep sig buffer bytesRead = none ↔
      bytesRead < OVERLAP sig ∧ 0 < bytesRead := by
  unfold carryStep
  by_cases h1 : OVERLAP sig ≤ bytesRead
  · rw [if_pos h1]; simp; omega
  · rw [if_neg h1]
    by_cases h2 : 0 < bytesRead
    · rw [if_pos h2]; simp; omega
    · rw [if_neg h2]; simp; omega

theorem scanAux_isSome (sig : List Nat) :
    ∀ (fuel : Nat) (rest buffer : List Nat) (bytesRead : Nat),
      (bytesRead = 0 ∨ OVERLAP sig ≤ bytesRead) →
      rest.length < fuel * bufferSize sig →
      (scanAux sig fuel buffer bytesRead rest).isSome = true := by
  intro fuel
  induction fuel with
  | zero => intro rest buffer bytesRead _ hflen; simp at hflen
  | succ fuel ih =>
    intro rest buffer bytesRead hb hflen
    have hcarry : ∃ b1, carryStep sig buffer bytesRead = some b1 := by
      rcases hb with rfl | hb
      · exact ⟨buffer, carryStep_zero sig buffer⟩
      · exact ⟨_, by unfold carryStep; rw [if_pos hb]⟩
    obtain ⟨b1, hcarry⟩ := hcarry
    simp only [scanAux, hcarry]
    by_cases hfound :
        searchFound sig (searchWindow sig b1 (rest.take (bufferSize sig))) = true
    · rw [if_pos hfound]; rfl
    · rw [if_neg hfound]
      by_cases hlt : (rest.take (bufferSize sig)).length < bufferSize sig
      · rw [if_pos hlt]; rfl
      · rw [if_neg hlt]
        apply ih
        · right
          have h1 : (rest.take (bufferSize sig)).length ≤ bufferSize sig := by
            rw [List.length_take]; omega
          have hov := overlap_lt_bufferSize sig
          omega
        · rw [List.length_drop]
          rw [Nat.succ_mul] at hflen
          have hlen : (rest.take (bufferSize sig)).length =
              min (bufferSize sig) rest.length := List.length_take _ _
          rcases Nat.le_total (bufferSize sig) rest.length with h | h
          · omega
          · rw [Nat.min_eq_right h] at hlen; omega

theorem filterMap_id_set_to_some (t : Task) :
    ∀ (l : List (Option Task)) (i : Nat), l[i]? = some none →
      ((l.set i (some t)).filterMap id).Perm (t :: l.filterMap id) := by
  intro l
  induction l with
  | nil => intro i h; simp at h
  | cons a tl ih =>
    intro i h
    cases i with
    | zero =>
      simp only [List.getElem?_cons_zero, Option.some_inj] at h
      subst h
      simp [List.filterMap_cons]
    | succ i =>
      simp only [List.getElem?_cons_succ] at h
      rw [List.set_cons_succ]
      cases a with
      | none =>
        simp only [List.filterMap_cons]
        exact ih i h
      | some b =>
        simp only [List.filterMap_cons]
        exact ((ih i h).cons b).trans (List.Perm.swap t b _)

theorem filterMap_id_set_to_none (t : Task) :
    ∀ (l : List (Option Task)) (i : Nat), l[i]? = some (some t) →
      (l.filterMap id).Perm (t :: (l.set i none).filterMap id) := by
  intro l
  induction l with
  | nil => intro i h; simp at h
  | cons a tl ih =>
    intro i h
    cases i with
    | zero =>
      simp only [List.getElem?_cons_zero, Option.some_inj] at h
      subst h
      simp [List.filterMap_cons]
    | succ i =>
      simp only [List.getElem?_cons_succ] at h
      rw [List.set_cons_succ]
      cases a with
      | none =>
        simp only [List.filterMap_cons]
        exact ih i h
      | some b =>
        simp only [List.filterMap_cons]
        exact ((ih i h).cons b).trans (List.Perm.swap t b _)

theorem boundaryRecords_eq_nil (t : Task) : boundaryRecords t = [] := by
  unfold boundaryRecords
  cases t.kind <;> rfl

theorem poolInv_init (n : Nat) (ts : List Task) (hn : 1 ≤ n) :
    PoolInv ts (initState n ts) := by
  refine ⟨?_, rfl, by simp [initState], ?_, ?_⟩
  · have hfm : (List.replicate n (none : Option Task)).filterMap id = [] := by
      rw [List.filterMap_eq_nil_iff]
      intro a ha
      rw [List.mem_replicate] at ha
      exact ha.2
    simp [initState, hfm]
  · intro i h
    simp only [initState, List.getElem?_replicate] at h
    split at h
    · simp at h
    · simp at h
  · exact Or.inl ⟨0, by simp [initState, List.getElem?_replicate]; omega⟩

theorem poolInv_step {ts : List Task} {s s' : PoolState}
    (hstep : PoolStep s s') (hinv : PoolInv ts s) : PoolInv ts s' := by
  obtain ⟨hperm, hsink, hlen, hdead, hlive⟩ := hinv
  cases hstep with
  | claimTask i t q hq ha hr =>
    refine ⟨?_, hsink, by simp [hlen], ?_, Or.inl ⟨i, ha⟩⟩
    · have h1 := filterMap_id_set_to_some t s.running i hr
      have h2 : (q ++ (s.running.set i (some t)).filterMap id ++ s.done).Perm
          (q ++ (t :: s.running.filterMap id) ++ s.done) :=
        (h1.append_left q).append_right s.done
      have h3 : (q ++ (t :: s.running.filterMap id) ++ s.done).Perm
          ((t :: (q ++ s.running.filterMap id)) ++ s.done) :=
        List.perm_middle.append_right s.done
      have h4 : (t :: (q ++ s.running.filterMap id)) ++ s.done =
          (t :: q) ++ s.running.filterMap id ++ s.done := by simp
      have h5 : ((t :: q) ++ s.running.filterMap id ++ s.done).Perm ts := by
        rw [← hq]; exact hperm
      exact (h2.trans (h3.trans (h4 ▸ List.Perm.refl _))).trans h5
    · intro j hj
      dsimp only at hj ⊢
      by_cases hij : i = j
      · subst hij
        rw [ha] at hj
        simp at hj
      · rw [List.getElem?_set_ne hij]
        exact hdead j hj
  | finishTask i t ha hr =>
    refine ⟨?_, by simp [boundaryRecords_eq_nil, hsink], by simp [hlen], ?_,
      Or.inl ⟨i, ha⟩⟩
    · have h1 := filterMap_id_set_to_none t s.running i hr
      have h2 : (s.queue ++ s.running.filterMap id ++ s.done).Perm
          (s.queue ++ (t :: (s.running.set i none).filterMap id) ++ s.done) :=
        (h1.append_left s.queue).append_right s.done
      have h3 : (s.queue ++ (t :: (s.running.set i none).filterMap id) ++ s.done).Perm
          ((t :: (s.queue ++ (s.running.set i none).filterMap id)) ++ s.done) :=
        List.perm_middle.append_right s.done
      have h4 : (s.queue ++ (s.running.set i none).filterMap id ++ (t :: s.done)).Perm
          ((t :: (s.queue ++ (s.running.set i none).filterMap id)) ++ s.done) := by
        have := @List.perm_middle _ t
          (s.queue ++ (s.running.set i none).filterMap id) s.done
        simpa using this
      exact h4.trans ((h2.trans h3).symm.trans hperm)
    · intro j hj
      dsimp only at hj ⊢
      by_cases hij : i = j
      · subst hij
        have hilt : i < s.running.length := by
          obtain ⟨hlt, -⟩ := List.getElem?_eq_some.mp hr
          exact hlt
        simp [List.getElem?_set_self hilt]
      · rw [List.getElem?_set_ne hij]
        exact hdead j hj
  | setStop =>
    exact ⟨hperm, hsink, hlen, hdead, hlive⟩
  | workerExit i ha hr hs hq =>
    refine ⟨hperm, hsink, by simp [hlen], ?_, Or.inr hq⟩
    · intro j hj
      dsimp only at hj ⊢
      by_cases hij : i = j
      · subst hij; exact hr
      · rw [List.getElem?_set_ne hij] at hj
        exact hdead j hj

theorem poolInv_reach {n : Nat} {ts : List Task} (hn : 1 ≤ n) {s : PoolState}
    (hreach : poolReach (initState n ts) s) : PoolInv ts s := by
  induction hreach with
  | refl => exact poolInv_init n ts hn
  | tail hab hbc ih => exact poolInv_step hbc ih

theorem poolInv_terminal {ts : List Task} {s : PoolState}
    (hinv : PoolInv ts s) (hterm : terminalState s) :
    s.done.Perm ts ∧ s.sink = [] := by
  obtain ⟨hperm, hsink, hlen, hdead, hlive⟩ := hinv
  have hq : s.queue = [] := by
    rcases hlive with ⟨i, hi⟩ | hq
    · have := hterm true (List.getElem?_mem hi)
      simp at this
    · exact hq
  have hrun : s.running.filterMap id = [] := by
    rw [List.filterMap_eq_nil_iff]
    intro a ha
    obtain ⟨i, hi⟩ := List.mem_iff_getElem?.mp ha
    have hilt : i < s.running.length := by
      obtain ⟨hlt, -⟩ := List.getElem?_eq_some.mp hi
      exact hlt
    have hialive : i < s.alive.length := by omega
    obtain ⟨b, hb⟩ : ∃ b, s.alive[i]? = some b := by
      cases hx : s.alive[i]? with
      | none => rw [List.getElem?_eq_none_iff] at hx; omega
      | some b => exact ⟨b, rfl⟩
    have hbf : b = false := hterm _ (List.getElem?_mem hb)
    have hnone := hdead i (by rw [hb, hbf])
    rw [hi] at hnone
    injection hnone
  rw [hq, hrun] at hperm
  exact ⟨by simpa using hperm, hsink⟩

theorem carryStep_length {sig buffer buffer1 : List Nat} {bytesRead : Nat}
    (h : carryStep sig buffer bytesRead = some buffer1)
    (hov : OVERLAP sig ≤ buffer.length) :
    buffer1.length = buffer.length := by
  unfold carryStep at h
  by_cases h1 : OVERLAP sig ≤ bytesRead
  · rw [if_pos h1] at h
    injection h with h
    rw [← h, List.length_append, List.length_drop, List.length_drop]
    omega
  · rw [if_neg h1] at h
    by_cases h2 : 0 < bytesRead
    · rw [if_pos h2] at h; exact absurd h (by simp)
    · rw [if_neg h2] at h
      injection h with h
      rw [← h]

theorem nextBuffer_length (sig buffer1 chunk : List Nat)
    (h1 : OVERLAP sig ≤ buffer1.length)
    (h2 : OVERLAP sig + chunk.length ≤ buffer1.length) :
    (nextBuffer sig buffer1 chunk).length = buffer1.length := by
  unfold nextBuffer
  rw [List.length_append, List.length_append, List.length_take, List.length_drop]
  omega

theorem scanAuxTrace_const (sig : List Nat) :
    ∀ (fuel : Nat) (rest buffer : List Nat) (bytesRead : Nat),
      buffer.length = allocationSize sig →
      ∀ p ∈ scanAuxTrace sig fuel buffer bytesRead rest,
        p = (allocationSize sig, bufferSize sig) := by
  intro fuel
  induction fuel with
  | zero => intro rest buffer bytesRead _ p hp; simp [scanAuxTrace] at hp
  | succ fuel ih =>
    intro rest buffer bytesRead hblen p hp
    have hov : OVERLAP sig ≤ buffer.length := by
      rw [hblen]; simp only [allocationSize]; omega
    simp only [scanAuxTrace] at hp
    rcases hc : carryStep sig buffer bytesRead with _ | buffer1
    · rw [hc] at hp; simp at hp
    · rw [hc] at hp
      have hb1 : buffer1.length = allocationSize sig := by
        rw [carryStep_length hc hov, hblen]
      rcases List.mem_cons.mp hp with hhead | htail
      · rw [hhead, hb1]
      · have hov1 : OVERLAP sig ≤ buffer1.length := by
          rw [hb1]; simp only [allocationSize]; omega
        by_cases hf :
            searchFound sig (searchWindow sig buffer1 (rest.take (bufferSize sig))) = true
        · rw [if_pos hf] at htail; simp at htail
        · rw [if_neg hf] at htail
          by_cases hlt : (rest.take (bufferSize sig)).length < bufferSize sig
          · rw [if_pos hlt] at htail; simp at htail
          · rw [if_neg hlt] at htail
            exact ih _ _ _ (by
              rw [nextBuffer_length sig buffer1 _ hov1 (by
                rw [hb1]
                have h3 : (rest.take (bufferSize sig)).length ≤ bufferSize sig := by
                  rw [List.length_take]; omega
                simp only [allocationSize]
                omega)]
              exact hb1) p htail

/-! ## Claim theorems -/

/-- Claim C1: for every non-empty signature `sig` and every file content in
which `sig` occurs contiguously at some byte offset — including offset 0, the
final offset `len(B) - len(S)`, and every offset at which the occurrence
straddles the boundary between two successive read chunks of size
`max(4096, len(S) + 1024)` — the buffered matcher reports a detection. -/
theorem claim_C1_contains_detects_occurrence (sig content : List Nat)
    (hne : sig ≠ []) (hocc : sig <:+: content) :
    containsSignatureBuffered content sig = some true :=
  contains_complete sig content hne hocc

/-- Witness for C1 at a concrete input. -/
theorem claim_C1_witness :
    ([1, 2] : List Nat) ≠ [] ∧ ([1, 2] : List Nat) <:+: [0, 1, 2, 3] ∧
      containsSignatureBuffered [0, 1, 2, 3] [1, 2] = some true :=
  ⟨by decide, ⟨[0], [3], rfl⟩,
    claim_C1_contains_detects_occurrence [1, 2] [0, 1, 2, 3] (by decide)
      ⟨[0], [3], rfl⟩⟩

/-- Claim C2 is violated by the code: on the first iteration the search
window starts with the `OVERLAP` zero-initialized bytes of the fresh
buffer, so the two-byte signature `0x00 0x41` is reported found in the
one-byte file `0x41` although it does not occur in it. -/
theorem claim_C2_zero_prefix_false_positive :
    containsSignatureBuffered [0x41] [0x00, 0x41] = some true ∧
      ¬ (([0x00, 0x41] : List Nat) <:+: [0x41]) :=
  ⟨rfl, fun h => absurd ((searchFound_iff _ _).mpr h) (by decide)⟩

/-- Claim C3 is violated by the code: a candidate file whose source cannot
be opened produces no sink record at all — `isELFFile` returns `false` on
`!file`, so the scan unit silently returns without an error record, for
every path and every signature. -/
theorem claim_C3_unopenable_file_silent (path : Nat) (sig : List Nat) :
    scanUnit path none sig = [] :=
  rfl

/-- Claim C4 is violated by the code: with a valid signature and one
discovered file, `main` prints the terminal status and blocks on stdin
strictly before the pool shutdown (the `ThreadPool` destructor at scope
exit) runs — the terminal report precedes the join, not the other way
around. -/
theorem claim_C4_report_before_shutdown :
    runMain (some [9]) [4] =
      (0, [MainEvent.submitScan 4, MainEvent.reportTerminal,
           MainEvent.waitStdin, MainEvent.poolShutdown]) :=
  rfl

/-- Claim C5: for any worker count ≥ 1, once the destructor's join has
returned (every worker exited), the multiset of executed units is exactly
the multiset of submitted units — each unit ran exactly once, none was run
twice and none was dropped. -/
theorem claim_C5_exactly_once (n : Nat) (ts : List Task) (s : PoolState)
    (hn : 1 ≤ n) (hreach : poolReach (initState n ts) s)
    (hterm : terminalState s) :
    s.done.Perm ts :=
  (poolInv_terminal (poolInv_reach hn hreach) hterm).1

/-- Claim C6 (amended): a unit that throws is caught at the worker-loop
boundary, so the worker survives and keeps draining — every submitted unit,
raising or not, is still executed — but the failure is silently swallowed:
the boundary emits no sink record. -/
theorem claim_C6_exceptions_swallowed (n : Nat) (ts : List Task) (s : PoolState)
    (hn : 1 ≤ n) (hreach : poolReach (initState n ts) s)
    (hterm : terminalState s) :
    s.done.Perm ts ∧ s.sink = [] :=
  poolInv_terminal (poolInv_reach hn hreach) hterm

theorem c5_reach : poolReach (initState 1 [c5Task]) c5Final := by
  have h1 : PoolStep (initState 1 [c5Task]) c5Mid1 :=
    PoolStep.claimTask _ 0 c5Task [] rfl rfl rfl
  have h2 : PoolStep c5Mid1 c5Mid2 :=
    PoolStep.finishTask _ 0 c5Task rfl rfl
  have h3 : PoolStep c5Mid2 c5Mid3 := PoolStep.setStop _
  have h4 : PoolStep c5Mid3 c5Final :=
    PoolStep.workerExit _ 0 rfl rfl rfl rfl
  exact Relation.ReflTransGen.head h1 (Relation.ReflTransGen.head h2
    (Relation.ReflTransGen.head h3 (Relation.ReflTransGen.head h4
      Relation.ReflTransGen.refl)))

/-- Witness for C5 on the concrete one-worker, one-unit run. -/
theorem claim_C5_witness :
    1 ≤ 1 ∧ poolReach (initState 1 [c5Task]) c5Final ∧
      terminalState c5Final ∧ c5Final.done.Perm [c5Task] :=
  ⟨by decide, c5_reach, by decide,
    claim_C5_exactly_once 1 [c5Task] c5Final (by decide) c5_reach (by decide)⟩

theorem c6_reach : poolReach (initState 1 [c6Task]) c6Final := by
  have h1 : PoolStep (initState 1 [c6Task]) c6Mid1 :=
    PoolStep.claimTask _ 0 c6Task [] rfl rfl rfl
  have h2 : PoolStep c6Mid1 c6Mid2 :=
    PoolStep.finishTask _ 0 c6Task rfl rfl
  have h3 : PoolStep c6Mid2 c6Mid3 := PoolStep.setStop _
  have h4 : PoolStep c6Mid3 c6Final :=
    PoolStep.workerExit _ 0 rfl rfl rfl rfl
  exact Relation.ReflTransGen.head h1 (Relation.ReflTransGen.head h2
    (Relation.ReflTransGen.head h3 (Relation.ReflTransGen.head h4
      Relation.ReflTransGen.refl)))

/-- Counterexample to C6 as stated: a complete run in which the single
unit throws, the run drains to a terminal state, and yet the sink holds no
error record — the worker-loop catch produced nothing. -/
theorem claim_C6_counterexample :
    poolReach (initState 1 [c6Task]) c6Final ∧ terminalState c6Final ∧
      c6Task ∈ c6Final.done ∧ c6Task.kind = TaskKind.raises ∧
      c6Final.sink = [] :=
  ⟨c6_reach, by decide, by decide, rfl, rfl⟩

/-- Witness for the amended C6 on the concrete throwing-unit run. -/
theorem claim_C6_witness :
    1 ≤ 1 ∧ poolReach (initState 1 [c6Task]) c6Final ∧
      terminalState c6Final ∧
      (c6Final.done.Perm [c6Task] ∧ c6Final.sink = []) :=
  ⟨by decide, c6_reach, by decide,
    claim_C6_exceptions_swallowed 1 [c6Task] c6Final (by decide) c6_reach
      (by decide)⟩

/-- Claim C7: `isELFFile` returns true exactly when the file yields at
least 4 readable bytes whose first 4 bytes are `0x7F 'E' 'L' 'F'`; shorter
or unopenable files give `false` with no error. -/
theorem claim_C7_isELF_iff (file : Option (List Nat)) :
    isELFFile file = true ↔
      ∃ bytes, file = some bytes ∧ 4 ≤ bytes.length ∧ bytes.take 4 = ELF_MAGIC := by
  cases file with
  | none => simp [isELFFile]
  | some bytes =>
    simp only [isELFFile]
    by_cases h : bytes.length < 4
    · rw [if_pos h]
      simp only [Bool.false_eq_true, false_iff]
      rintro ⟨b, hb, h1, h2⟩
      injection hb with hb'
      subst hb'
      omega
    · rw [if_neg h, beq_iff_eq]
      constructor
      · intro ht
        exact ⟨bytes, rfl, by omega, ht⟩
      · rintro ⟨b, hb, h1, h2⟩
        injection hb with hb'
        subst hb'
        exact h2

/-- Claim C8: an empty loaded signature is rejected as a configuration
error before any file is scanned — exit code 1 with an empty event trace —
and an empty signature never causes a match on any file. -/
theorem claim_C8_empty_signature_rejected (files : List Nat)
    (file : Option (List Nat)) :
    runMain (some []) files = (1, []) ∧ containsSignatureFile file [] = some false :=
  ⟨rfl, by simp [containsSignatureFile]⟩

/-- Claim C9: one invocation of the matcher allocates a single working
buffer of exactly `max(4096, len(S) + 1024) + (len(S) - 1)` bytes — a
quantity independent of the scanned file — and each read of the loop
requests exactly the chunk size `max(4096, len(S) + 1024)` bytes. -/
theorem claim_C9_bounded_memory (sig content : List Nat) (hne : sig ≠ []) :
    allocationSize sig = max 4096 (sig.length + 1024) + (sig.length - 1) ∧
      ∀ p ∈ scanTrace content sig,
        p.1 = max 4096 (sig.length + 1024) + (sig.length - 1) ∧
          p.2 = max 4096 (sig.length + 1024) := by
  constructor
  · rfl
  · intro p hp
    unfold scanTrace at hp
    rw [if_neg (by simpa using hne)] at hp
    have := scanAuxTrace_const sig (content.length + 1) content
      (List.replicate (allocationSize sig) 0) 0 (by simp) p hp
    rw [this]
    exact ⟨rfl, rfl⟩

/-- Witness for C9 at a concrete input. -/
theorem claim_C9_witness :
    (([3] : List Nat) ≠ []) ∧
      (allocationSize [3] =
          max 4096 (([3] : List Nat).length + 1024) + (([3] : List Nat).length - 1) ∧
        ∀ p ∈ scanTrace [7] [3],
          p.1 = max 4096 (([3] : List Nat).length + 1024) + (([3] : List Nat).length - 1) ∧
            p.2 = max 4096 (([3] : List Nat).length + 1024)) :=
  ⟨by decide, claim_C9_bounded_memory [3] [7] (by decide)⟩

/-- Claim C10: the carry-over branch for `0 < bytesRead < OVERLAP` — whose
copy source `buffer.begin() + bytesRead - OVERLAP` would be out of bounds —
is exactly the situation modelled by `carryStep = none`, and for every
non-empty signature a whole scan never produces it: on the first iteration
`bytesRead = 0` and later iterations only run after a full read of
`buffer_size ≥ OVERLAP` bytes. -/
theorem claim_C10_no_oob_carry (sig content : List Nat) (hne : sig ≠ []) :
    (∀ (buffer : List Nat) (bytesRead : Nat),
        carryStep sig buffer bytesRead = none ↔
          bytesRead < OVERLAP sig ∧ 0 < bytesRead) ∧
      (containsSignatureBuffered content sig).isSome = true := by
  refine ⟨fun buffer bytesRead => carryStep_none_iff sig buffer bytesRead, ?_⟩
  unfold containsSignatureBuffered
  rw [if_neg (by simpa using hne)]
  apply scanAux_isSome sig (content.length + 1) content _ 0 (Or.inl rfl)
  have h1 : content.length * 1 ≤ content.length * bufferSize sig :=
    Nat.mul_le_mul_left _ (bufferSize_pos sig)
  have h2 : 0 < bufferSize sig := bufferSize_pos sig
  rw [Nat.succ_mul]
  omega

/-- Witness for C10 at a concrete input. -/
theorem claim_C10_witness :
    (([5] : List Nat) ≠ []) ∧
      ((∀ (buffer : List Nat) (bytesRead : Nat),
          carryStep [5] buffer bytesRead = none ↔
            bytesRead < OVERLAP [5] ∧ 0 < bytesRead) ∧
        (containsSignatureBuffered [] [5]).isSome = true) :=
  ⟨by decide, claim_C10_no_oob_carry [5] [] (by decide)⟩

end CryptyDetector
